import Mathlib

/-!
Verification of the funee bundler core.

This file gives a shallow embedding, in Lean, of the central data model and
algorithms of the funee source-graph bundler:

  * the canonical identifier model (`FuneeIdentifier`),
  * a core JavaScript AST sufficient for the claims under study,
  * the declaration payload (`Declaration`) carried by graph nodes,
  * the reference renamer (`renameReferencesInDeclaration`),
  * declaration lowering (`Declaration.intoModuleItem`),
  * the module declaration extractor (`getModuleDeclarations`),
  * the demand-driven graph builder (`loadGraph`) with its
    indirection-resolution loop (`resolveLoop`),
  * the macro expansion pass (`expandMacros`) and the emitter
    (`intoJsExecutionCode`).

External collaborators (the swc parser/codegen, the deno_core runtime used to
evaluate macro functions, the file loader) are modelled as parameters or as
simple executable stand-ins; the algorithms themselves are translated
from the Rust sources.
-/

namespace Funee

/-- Canonical identifier: a `(name, uri)` pair with structural equality,
mirroring `FuneeIdentifier { name, uri }`. -/
structure FuneeIdentifier where
  name : String
  uri : String
deriving DecidableEq, Repr

/-- A JavaScript identifier.  swc identifiers carry a span with hygiene marks;
the only query the core ever makes is `span.has_mark(unresolved_mark)`, so the
mark state is modelled as a single boolean. -/
structure JsIdent where
  sym : String
  mark : Bool
deriving DecidableEq, Repr

/-- Binding patterns (`Pat::Ident` and `Pat::Rest`), the only pattern forms the
modelled code paths construct or inspect. -/
inductive Pat where
  | pident (i : JsIdent)
  | prest (p : Pat)
deriving DecidableEq, Repr

mutual
/-- Core JavaScript expression AST (the fragment of `swc_ecma_ast::Expr` the
claims exercise). -/
inductive JsExpr where
  | ident (i : JsIdent)
  | lit (v : String)
  | call (callee : Callee) (args : JsArgs)
  | member (obj : JsExpr) (prop : String)
  | fnE (name : Option JsIdent) (f : JsFunction)
  | arrow (params : List Pat) (body : JsExpr)
  | bin (op : String) (l : JsExpr) (r : JsExpr)

/-- Model of `Callee`: either an expression or `super`. -/
inductive Callee where
  | cexpr (e : JsExpr)
  | csuper

/-- Argument list: each argument is an `ExprOrSpread`. -/
inductive JsArgs where
  | nil
  | cons (spread : Bool) (e : JsExpr) (rest : JsArgs)

/-- Model of `swc_ecma_ast::Function`: parameter patterns plus a body. -/
inductive JsFunction where
  | mk (params : List Pat) (body : Stmts)

/-- Statement list. -/
inductive Stmts where
  | nil
  | cons (s : Stmt) (rest : Stmts)

/-- Statements: expression statement, return, function declaration and a
single-declarator `var` declaration (the shapes the core constructs). -/
inductive Stmt where
  | sexpr (e : JsExpr)
  | sret (e : JsExpr)
  | sfn (name : JsIdent) (f : JsFunction)
  | svar (name : Pat) (init : JsExpr)
end

/-- The declaration payload of a graph node, mirroring `enum Declaration` with
the `Macro` and `ClosureValue` variants used by the expansion and emission
passes. -/
inductive Declaration where
  | expr (e : JsExpr)
  | fnExpr (name : Option JsIdent) (f : JsFunction)
  | fnDecl (name : JsIdent) (f : JsFunction)
  | varInit (e : JsExpr)
  | funeeIdentifier (i : FuneeIdentifier)
  | hostFn (name : String)
  | macroDecl (e : JsExpr)
  | closureValue (expression : String) (references : List (String × FuneeIdentifier))

/-- The renamer's map `local-name → new-name`; a Rust `HashMap` queried only
through `get`, modelled as an association list with `List.lookup`. -/
abbrev RenMap := List (String × String)

/-- Model of `RenameReferences::visit_mut_ident`: rewrite the symbol iff the span
carries the unresolved mark and the name is a key of the map. -/
def renameId (m : RenMap) (i : JsIdent) : JsIdent :=
  if i.mark then
    match m.lookup i.sym with
    | some n => ⟨n, i.mark⟩
    | none => i
  else i

/-- Renaming over binding patterns (the visitor visits every `Ident`,
including binding identifiers). -/
def renamePat (m : RenMap) : Pat → Pat
  | .pident i => .pident (renameId m i)
  | .prest p => .prest (renamePat m p)

mutual
/-- AST traversal of `RenameReferences` (a `VisitMut` visiting every `Ident`;
member properties are `IdentName`s and are not visited). -/
def renameE (m : RenMap) : JsExpr → JsExpr
  | .ident i => .ident (renameId m i)
  | .lit v => .lit v
  | .call c args => .call (renameCallee m c) (renameArgs m args)
  | .member o p => .member (renameE m o) p
  | .fnE n f => .fnE (n.map (renameId m)) (renameFn m f)
  | .arrow ps b => .arrow (ps.map (renamePat m)) (renameE m b)
  | .bin op l r => .bin op (renameE m l) (renameE m r)

def renameCallee (m : RenMap) : Callee → Callee
  | .cexpr e => .cexpr (renameE m e)
  | .csuper => .csuper

def renameArgs (m : RenMap) : JsArgs → JsArgs
  | .nil => .nil
  | .cons sp e rest => .cons sp (renameE m e) (renameArgs m rest)

def renameFn (m : RenMap) : JsFunction → JsFunction
  | .mk ps body => .mk (ps.map (renamePat m)) (renameStmts m body)

def renameStmts (m : RenMap) : Stmts → Stmts
  | .nil => .nil
  | .cons s rest => .cons (renameStmt m s) (renameStmts m rest)

def renameStmt (m : RenMap) : Stmt → Stmt
  | .sexpr e => .sexpr (renameE m e)
  | .sret e => .sret (renameE m e)
  | .sfn i f => .sfn (renameId m i) (renameFn m f)
  | .svar p e => .svar (renamePat m p) (renameE m e)
end

/-- Model of `rename_references_in_declaration`: dispatch over the declaration kind.
For `FnDecl` only the function (not its name ident) is visited; for `FnExpr`
the whole node (optional name plus function) is visited; `FuneeIdentifier` and
`HostFn` carry no AST.  The `VarInit`, `Macro` and `ClosureValue` variants are
handled the same way the emitter requires (`VarInit` like `Expr`; the other
two never reach the renamer because the emitter skips them). -/
def renameReferencesInDeclaration (m : RenMap) : Declaration → Declaration
  | .expr e => .expr (renameE m e)
  | .fnExpr n f => .fnExpr (n.map (renameId m)) (renameFn m f)
  | .fnDecl i f => .fnDecl i (renameFn m f)
  | .varInit e => .varInit (renameE m e)
  | .funeeIdentifier i => .funeeIdentifier i
  | .hostFn n => .hostFn n
  | .macroDecl e => .macroDecl e
  | .closureValue a b => .closureValue a b

theorem renameId_empty (i : JsIdent) : renameId [] i = i := by
  unfold renameId
  cases i.mark <;> simp

theorem renamePat_empty (p : Pat) : renamePat [] p = p := by
  induction p with
  | pident i => simp [renamePat, renameId_empty]
  | prest p ih => simp [renamePat, ih]

theorem map_renamePat_empty (ps : List Pat) : ps.map (renamePat []) = ps := by
  induction ps with
  | nil => rfl
  | cons p ps ih => simp [ih, renamePat_empty]

mutual
theorem renameE_empty : ∀ e, renameE [] e = e
  | .ident i => by simp [renameE, renameId_empty]
  | .lit v => by simp [renameE]
  | .call c args => by
      rw [renameE, renameCallee_empty c, renameArgs_empty args]
  | .member o p => by rw [renameE, renameE_empty o]
  | .fnE n f => by
      rw [renameE, renameFn_empty f]
      cases n <;> simp [renameId_empty]
  | .arrow ps b => by rw [renameE, renameE_empty b, map_renamePat_empty]
  | .bin op l r => by rw [renameE, renameE_empty l, renameE_empty r]

theorem renameCallee_empty : ∀ c, renameCallee [] c = c
  | .cexpr e => by rw [renameCallee, renameE_empty e]
  | .csuper => rfl

theorem renameArgs_empty : ∀ a, renameArgs [] a = a
  | .nil => rfl
  | .cons sp e rest => by
      rw [renameArgs, renameE_empty e, renameArgs_empty rest]

theorem renameFn_empty : ∀ f, renameFn [] f = f
  | .mk ps body => by
      rw [renameFn, renameStmts_empty body, map_renamePat_empty]

theorem renameStmts_empty : ∀ s, renameStmts [] s = s
  | .nil => rfl
  | .cons s rest => by
      rw [renameStmts, renameStmt_empty s, renameStmts_empty rest]

theorem renameStmt_empty : ∀ s, renameStmt [] s = s
  | .sexpr e => by rw [renameStmt, renameE_empty e]
  | .sret e => by rw [renameStmt, renameE_empty e]
  | .sfn i f => by rw [renameStmt, renameFn_empty f, renameId_empty]
  | .svar p e => by rw [renameStmt, renameE_empty e, renamePat_empty]
end

/-- C8: For every declaration AST, applying the renamer with an empty
replacement map is the identity: `rename_references_in_declaration` with an
empty `to_replace` map leaves the declaration unchanged. -/
theorem C8_rename_empty_map_identity (d : Declaration) :
    renameReferencesInDeclaration [] d = d := by
  cases d with
  | expr e => rw [renameReferencesInDeclaration, renameE_empty]
  | fnExpr n f =>
      rw [renameReferencesInDeclaration, renameFn_empty]
      cases n <;> simp [renameId_empty]
  | fnDecl i f => rw [renameReferencesInDeclaration, renameFn_empty]
  | varInit e => rw [renameReferencesInDeclaration, renameE_empty]
  | funeeIdentifier i => rfl
  | hostFn n => rfl
  | macroDecl e => rfl
  | closureValue a b => rfl

/-- Model of `Declaration::into_module_item(self, name)`: lower a declaration to a
top-level statement under the synthetic name.

  * `FnDecl`: overwrite the bound ident's symbol with `name` in place
    (the ident's span — hence its mark — is preserved).
  * `FnExpr`: wrap the function as a function declaration with a fresh
    ident (`SyntaxContext::empty()`, so no marks); the original optional
    name ident is dropped.
  * `Expr`: an expression statement.
  * `VarInit(e)`: `var name = e;` with a fresh ident.
  * `HostFn(op)`: the trampoline
    `function name(...args){ return Deno.core.ops.op_<op>(...args); }`.
  * `FuneeIdentifier` is `unreachable!()` in the source; `Macro` and
    `ClosureValue` are filtered out by the emitter before lowering.  These
    arms are given an inert placeholder statement so the function is total. -/
def Declaration.intoModuleItem : Declaration → String → Stmt
  | .fnDecl i f, name => .sfn ⟨name, i.mark⟩ f
  | .fnExpr _ f, name => .sfn ⟨name, false⟩ f
  | .expr e, _ => .sexpr e
  | .varInit e, name => .svar (.pident ⟨name, false⟩) e
  | .funeeIdentifier _, _ => .sexpr (.lit "unreachable")
  | .hostFn op, name =>
      .sfn ⟨name, false⟩
        (.mk [.prest (.pident ⟨"args", false⟩)]
          (.cons
            (.sret
              (.call
                (.cexpr
                  (.member
                    (.member (.member (.ident ⟨"Deno", false⟩) "core") "ops")
                    ("op_" ++ op)))
                (.cons true (.ident ⟨"args", false⟩) .nil)))
            .nil))
  | .macroDecl _, _ => .sexpr (.lit "unreachable")
  | .closureValue _ _, _ => .sexpr (.lit "unreachable")

/-- Modelled from the spec's words: the trampoline statement
`function n(...args){ return Deno.core.ops.op_<h>(...args); }` — a function
declaration named `n` with a single rest parameter `args` whose body is a
single return of a call to the member path `Deno.core.ops.op_<h>` with the
rest parameter spread as the only argument. -/
def hostTrampolineSpec (n h : String) : Stmt :=
  .sfn ⟨n, false⟩
    (.mk [.prest (.pident ⟨"args", false⟩)]
      (.cons
        (.sret
          (.call
            (.cexpr
              (.member (.member (.member (.ident ⟨"Deno", false⟩) "core") "ops")
                ("op_" ++ h)))
            (.cons true (.ident ⟨"args", false⟩) .nil)))
        .nil))

/-- C7: lowering a `HostFunction` declaration with op name `h` under synthetic
name `n` emits exactly the statement
`function n(...args){ return Deno.core.ops.op_h(...args); }`: a function
declaration with a single rest parameter whose body returns a call to
`Deno.core.ops.op_<h>` with the rest parameter spread as the only argument. -/
theorem C7_host_trampoline (n h : String) :
    Declaration.intoModuleItem (.hostFn h) n = hostTrampolineSpec n h := rfl

/-! ## Module declaration extractor -/

/-- A module declaration: `(exported, declaration)` keyed by local export
name. -/
structure ModuleDeclaration where
  exported : Bool
  declaration : Declaration

/-- Named export specifier (`ExportSpecifier::Named`): original name plus an
optional export alias.  `ModuleExportName` (ident or string) is modelled as
the name it denotes. -/
inductive ExportSpecifierM where
  | named (orig : String) (exported : Option String)
  | defaultS
  | namespaceS

/-- Import specifier: named (with optional `imported` source name), default,
or namespace. -/
inductive ImportSpecifierM where
  | named (localName : String) (imported : Option String)
  | defaultS (localName : String)
  | namespaceS (localName : String)

/-- A variable declarator: a binding pattern with an optional initializer. -/
structure VarDeclaratorM where
  name : Pat
  init : Option JsExpr

/-- The top-level module item forms the extractor recognizes (all others fall
into `other` and are ignored). -/
inductive ModuleItemM where
  | exportDefaultFn (name : Option JsIdent) (f : JsFunction)
  | exportDefaultOtherDecl
  | exportDeclFn (name : JsIdent) (f : JsFunction)
  | exportDeclVar (decls : List VarDeclaratorM)
  | exportNamed (specifiers : List ExportSpecifierM) (src : Option String)
  | importDecl (specifiers : List ImportSpecifierM) (src : String)
  | exportDefaultExpr (e : JsExpr)
  | stmtFn (name : JsIdent) (f : JsFunction)
  | stmtVar (decls : List VarDeclaratorM)
  | other

/-- A parsed module body. -/
structure Module where
  body : List ModuleItemM

/-- Model of `extract_macro_function`: if the expression is a call whose callee is the
bare identifier `createMacro`, return the first argument's expression. -/
def extractMacroFunction : JsExpr → Option JsExpr
  | .call (.cexpr (.ident i)) args =>
      if i.sym = "createMacro" then
        match args with
        | .cons _ e _ => some e
        | .nil => none
      else none
  | _ => none

/-- Model of `Path::new(current_uri).join(src)`: no normalization is performed; an
empty base yields the joined path verbatim, an absolute `src` replaces the
base. -/
def pathJoin (base s : String) : String :=
  if base = "" then s
  else if s.startsWith "/" then s
  else base ++ "/" ++ s

/-- Declarations contributed by one variable declarator: only simple
identifier patterns with initializers are kept, and a `createMacro(...)`
initializer is upgraded to a `Macro` declaration. -/
def declarationsOfVarDeclarator (exported : Bool) (d : VarDeclaratorM) :
    List (String × ModuleDeclaration) :=
  match d.name, d.init with
  | .pident i, some init =>
      match extractMacroFunction init with
      | some mfn => [(i.sym, ⟨exported, .macroDecl mfn⟩)]
      | none => [(i.sym, ⟨exported, .varInit init⟩)]
  | _, _ => []

/-- Model of `get_module_declarations_from_module_item`. -/
def getModuleDeclarationsFromModuleItem (currentUri : String) :
    ModuleItemM → List (String × ModuleDeclaration)
  | .exportDefaultFn n f => [("default", ⟨true, .fnExpr n f⟩)]
  | .exportDefaultOtherDecl => []
  | .exportDeclFn i f => [(i.sym, ⟨true, .fnDecl i f⟩)]
  | .exportDeclVar decls => decls.flatMap (declarationsOfVarDeclarator true)
  | .exportNamed specifiers src =>
      specifiers.filterMap fun sp =>
        match sp with
        | .named orig exported =>
            some
              (exported.getD orig,
                ⟨true,
                  .funeeIdentifier
                    ⟨orig,
                      match src with
                      | some s => s
                      | none => currentUri⟩⟩)
        | .defaultS => none
        | .namespaceS => none
  | .importDecl specifiers src =>
      specifiers.filterMap fun sp =>
        match sp with
        | .named localName imported =>
            some
              (localName,
                ⟨false,
                  .funeeIdentifier
                    ⟨imported.getD localName, pathJoin currentUri src⟩⟩)
        | .defaultS localName =>
            some
              (localName,
                ⟨false, .funeeIdentifier ⟨"default", pathJoin currentUri src⟩⟩)
        | .namespaceS _ => none
  | .exportDefaultExpr e => [("default", ⟨true, .varInit e⟩)]
  | .stmtFn i f => [(i.sym, ⟨false, .fnDecl i f⟩)]
  | .stmtVar decls => decls.flatMap (declarationsOfVarDeclarator false)
  | .other => []

/-- Lookup with `HashMap::from_iter` semantics: the last occurrence of a key in the
iteration wins. -/
def hmLookup {α : Type} (l : List (String × α)) (k : String) : Option α :=
  (l.reverse.find? (fun p => p.1 = k)).map (·.2)

/-- Model of `get_module_declarations`: flatten all module items, passing an *empty*
current URI to the per-item extractor (the call site hardcodes
`"".to_string()`). -/
def getModuleDeclarations (m : Module) : List (String × ModuleDeclaration) :=
  m.body.flatMap (getModuleDeclarationsFromModuleItem "")

/-! ## Free-variable resolver -/

/-- Duplicate elimination keeping first occurrences (a `HashSet` collected in
deterministic order). -/
def dedupAux (seen : List String) : List String → List String
  | [] => []
  | x :: xs =>
      if seen.contains x then dedupAux seen xs
      else x :: dedupAux (x :: seen) xs

/-- Duplicate-free projection of a name list. -/
def dedupFirst (l : List String) : List String :=
  dedupAux [] l

/-- Names bound by a pattern. -/
def patNames : Pat → List String
  | .pident i => [i.sym]
  | .prest p => patNames p

/-- Names bound by a parameter list. -/
def patsNames (ps : List Pat) : List String :=
  ps.flatMap patNames

/-- Function-scope hoisted names declared by a statement list (function and
`var` declarations), as the swc resolver pass binds them. -/
def declaredNamesStmts : Stmts → List String
  | .nil => []
  | .cons s rest =>
      (match s with
       | .sfn i _ => [i.sym]
       | .svar p _ => patNames p
       | _ => []) ++ declaredNamesStmts rest

mutual
/-- Free identifiers of an expression relative to the bound environment.
Models the swc `resolver` pass (which tags binders) followed by collection of
identifiers still carrying the unresolved mark: an identifier is collected iff
no enclosing construct binds its name. -/
def freeE (bound : List String) : JsExpr → List String
  | .ident i => if bound.contains i.sym then [] else [i.sym]
  | .lit _ => []
  | .call c args => freeCallee bound c ++ freeArgs bound args
  | .member o _ => freeE bound o
  | .fnE n f =>
      freeFn (bound ++ (match n with | some i => [i.sym] | none => [])) f
  | .arrow ps b => freeE (bound ++ patsNames ps) b
  | .bin _ l r => freeE bound l ++ freeE bound r

def freeCallee (bound : List String) : Callee → List String
  | .cexpr e => freeE bound e
  | .csuper => []

def freeArgs (bound : List String) : JsArgs → List String
  | .nil => []
  | .cons _ e rest => freeE bound e ++ freeArgs bound rest

def freeFn (bound : List String) : JsFunction → List String
  | .mk ps body =>
      freeStmts (bound ++ patsNames ps ++ declaredNamesStmts body) body

def freeStmts (bound : List String) : Stmts → List String
  | .nil => []
  | .cons s rest => freeStmt bound s ++ freeStmts bound rest

def freeStmt (bound : List String) : Stmt → List String
  | .sexpr e => freeE bound e
  | .sret e => freeE bound e
  | .sfn _ f => freeFn bound f
  | .svar _ e => freeE bound e
end

/-- Model of `get_references_from_declaration`: the set (modelled as a duplicate-free
list) of free identifiers of the declaration's AST.  For `FnDecl` only the
function is analysed (not its name ident); `FuneeIdentifier` and `HostFn`
carry no AST.  `VarInit` and `Macro` are analysed like expressions (the
snapshot's match is stated over the emitter-relevant variants);
`ClosureValue` carries no AST. -/
def getReferencesFromDeclaration : Declaration → List String
  | .expr e => (freeE [] e)|> dedupFirst
  | .fnExpr n f => (freeE [] (.fnE n f))|> dedupFirst
  | .fnDecl _ f => (freeFn [] f)|> dedupFirst
  | .varInit e => (freeE [] e)|> dedupFirst
  | .funeeIdentifier _ => []
  | .hostFn _ => []
  | .macroDecl e => (freeE [] e)|> dedupFirst
  | .closureValue _ _ => []

/-- The enumerated JavaScript globals of `is_js_global`. -/
def jsGlobals : List String :=
  ["globalThis", "undefined", "NaN", "Infinity",
   "Object", "Function", "Boolean", "Symbol",
   "Number", "BigInt", "Math", "Date",
   "String", "RegExp",
   "Array", "Int8Array", "Uint8Array", "Uint8ClampedArray",
   "Int16Array", "Uint16Array", "Int32Array", "Uint32Array",
   "Float32Array", "Float64Array", "BigInt64Array", "BigUint64Array",
   "Map", "Set", "WeakMap", "WeakSet", "WeakRef", "FinalizationRegistry",
   "ArrayBuffer", "SharedArrayBuffer", "DataView",
   "Promise", "Proxy", "Reflect",
   "Error", "AggregateError", "EvalError", "RangeError",
   "ReferenceError", "SyntaxError", "TypeError", "URIError",
   "JSON", "Intl", "Atomics",
   "eval", "isFinite", "isNaN", "parseFloat", "parseInt",
   "decodeURI", "decodeURIComponent", "encodeURI", "encodeURIComponent",
   "setTimeout", "setInterval", "clearTimeout", "clearInterval",
   "setImmediate", "clearImmediate",
   "queueMicrotask",
   "console",
   "fetch", "Request", "Response", "Headers", "URL", "URLSearchParams",
   "FormData", "Blob", "File", "FileReader",
   "TextEncoder", "TextDecoder",
   "AbortController", "AbortSignal",
   "Event", "EventTarget", "CustomEvent",
   "crypto", "Crypto", "CryptoKey", "SubtleCrypto",
   "atob", "btoa",
   "structuredClone"]

/-- Model of `is_js_global`. -/
def isJsGlobal (name : String) : Bool :=
  jsGlobals.contains name

/-! ## Path model

`Path::parent` and `RelativePath::to_logical_path`, restricted to the
forward-slash paths the core manipulates.  The string splitting and joining
primitives are implemented structurally over the character list so that
concrete runs reduce definitionally. -/

/-- Split a character list at a separator character. -/
def splitOnChar (c : Char) : List Char → List (List Char)
  | [] => [[]]
  | x :: xs =>
      match splitOnChar c xs with
      | [] => [[x]]
      | h :: t => if x = c then [] :: h :: t else (x :: h) :: t

/-- Split a string on `/`. -/
def splitSlash (s : String) : List String :=
  (splitOnChar '/' s.data).map String.mk

/-- Join strings with a separator. -/
def joinWith (sep : String) : List String → String
  | [] => ""
  | [x] => x
  | x :: y :: xs => x ++ sep ++ joinWith sep (y :: xs)

/-- Whether the string starts with `/`. -/
def startsWithSlash (s : String) : Bool :=
  match s.data with
  | '/' :: _ => true
  | _ => false

/-- Model of `Path::new(s).parent()`: drop the last path component; `None` for the
empty path and the bare root. -/
def parentDir (s : String) : Option String :=
  if s = "" ∨ s = "/" then none
  else
    let parts := splitSlash s
    let front := parts.dropLast
    if front = [] then some ""
    else if front = [""] then some "/"
    else some (joinWith "/" front)

/-- Model of `RelativePath::new(r).to_logical_path(base)`: append the relative path to
the base, resolving `.` and `..` logically. -/
def logicalPath (r base : String) : String :=
  let isAbs := startsWithSlash base
  let baseComps := (splitSlash base).filter (fun c => c != "")
  let comps :=
    (splitSlash r).foldl
      (fun acc c =>
        if c = "" ∨ c = "." then acc
        else if c = ".." then acc.dropLast
        else acc ++ [c])
      baseComps
  (if isAbs then "/" else "") ++ joinWith "/" comps

/-! ## Source graph builder -/

/-- Model of `load_declaration`: load and parse the module at the identifier's URI and
look up the name in its extracted declarations.  The file universe the
loader serves is the function `files`; a missing module or a missing export
both surface as `none` (the caller's `.expect` panic). -/
def loadDeclaration (files : String → Option Module) (t : FuneeIdentifier) :
    Option ModuleDeclaration :=
  (files t.uri).bind fun m => hmLookup (getModuleDeclarations m) t.name

/-- Outcome of resolving one reference. -/
inductive ResolveOut where
  | ok (d : Declaration) (uri : String)
  | missing (id : FuneeIdentifier)
  | pathPanic (uri : String)
  | fuelOut

/-- The indirection-resolution loop of `SourceGraph::load` (the `loop` at its
heart), with explicit fuel: repeatedly load the declaration at the current
identifier; on an indirection, check the *unadjusted* target against the host
set, then resolve its URI against the current module's parent directory and
continue; any concrete declaration stops the loop.  The loop itself carries
no visited set. -/
def resolveLoop (H : List FuneeIdentifier) (files : String → Option Module) :
    Nat → FuneeIdentifier → ResolveOut
  | 0, _ => .fuelOut
  | fuel + 1, cur =>
    match loadDeclaration files cur with
    | none => .missing cur
    | some md =>
      match md.declaration with
      | .funeeIdentifier i =>
          if i ∈ H then .ok (.hostFn i.name) cur.uri
          else
            match parentDir cur.uri with
            | none => .pathPanic cur.uri
            | some dir =>
                resolveLoop H files fuel ⟨i.name, logicalPath i.uri dir⟩
      | d => .ok d cur.uri

/-- Resolution of a tentative reference: the pre-loop host check (which never
touches the loader) followed by the resolution loop. -/
def resolveReference (H : List FuneeIdentifier) (files : String → Option Module)
    (fuel : Nat) (ref : FuneeIdentifier) : ResolveOut :=
  if ref ∈ H then .ok (.hostFn ref.name) ref.uri
  else resolveLoop H files fuel ref

/-- The graph: node payloads `(resolved-uri, declaration)` indexed by
position, edges `(source, target, local-name label)` in insertion order. -/
structure SGraph where
  nodes : List (String × Declaration)
  edges : List (Nat × Nat × String)

/-- The mutable state of `SourceGraph::load`'s DFS. -/
structure LoadState where
  nodes : List (String × Declaration)
  edges : List (Nat × Nat × String)
  defsIndex : List (FuneeIdentifier × Nat)
  stack : List Nat
  visited : List Nat

/-- Lookup in `definitions_index` (keys are inserted at most once). -/
def lookupIndex (idx : List (FuneeIdentifier × Nat)) (k : FuneeIdentifier) :
    Option Nat :=
  (idx.find? (fun p => p.1 == k)).map (·.2)

/-- Lines 174–186 of `source_graph.rs`: insertion of one resolved reference.
If the *tentative* identifier is not yet indexed, add a node carrying the
resolved URI and declaration, an edge labelled with the local name, index the
tentative identifier, and push the new node on the DFS stack; otherwise only
add an edge to the already-indexed node. -/
def insertReference (st : LoadState) (nx : Nat) (label : String)
    (tid : FuneeIdentifier) (ruri : String) (d : Declaration) : LoadState :=
  match lookupIndex st.defsIndex tid with
  | none =>
      let idx := st.nodes.length
      { st with
        nodes := st.nodes ++ [(ruri, d)]
        edges := st.edges ++ [(nx, idx, label)]
        defsIndex := (tid, idx) :: st.defsIndex
        stack := idx :: st.stack }
  | some idx => { st with edges := st.edges ++ [(nx, idx, label)] }

/-- The outgoing references of a visited node `(t, decl)`: an indirection
payload yields the single synthetic reference keyed by the node's URI; any
other declaration yields one tentative identifier `(name, t)` per free name. -/
def referencesOf (t : String) (d : Declaration) :
    List (String × FuneeIdentifier) :=
  match d with
  | .funeeIdentifier i => [(t, i)]
  | _ => (getReferencesFromDeclaration d).map fun x => (x, ⟨x, t⟩)

/-- Intermediate result of a load step. -/
inductive StepRes where
  | ok (st : LoadState)
  | panicMissing (id : FuneeIdentifier)
  | pathPanic (uri : String)
  | fuelOut

/-- The body of the `for reference in references` loop: skip JS globals,
resolve the reference (host check first), then insert. -/
def processRefs (H : List FuneeIdentifier) (files : String → Option Module)
    (fuel : Nat) (nx : Nat) :
    List (String × FuneeIdentifier) → LoadState → StepRes
  | [], st => .ok st
  | (label, tid) :: rest, st =>
      if isJsGlobal label then processRefs H files fuel nx rest st
      else
        match resolveReference H files fuel tid with
        | .ok d ruri =>
            processRefs H files fuel nx rest (insertReference st nx label tid ruri d)
        | .missing id => .panicMissing id
        | .pathPanic u => .pathPanic u
        | .fuelOut => .fuelOut

/-- Model of `dfs.next`: pop the stack until an undiscovered node appears. -/
def popNext : List Nat → List Nat → Option (Nat × List Nat)
  | [], _ => none
  | nx :: rest, visited =>
      if nx ∈ visited then popNext rest visited else some (nx, rest)

/-- Final outcome of `SourceGraph::load`. -/
inductive LoadOutcome where
  | ok (g : SGraph)
  | panicMissing (id : FuneeIdentifier)
  | pathPanic (uri : String)
  | fuelOut

/-- The DFS driver of `SourceGraph::load`, with explicit fuel bounding both
the outer visit loop and each inner resolution loop. -/
def loadLoop (H : List FuneeIdentifier) (files : String → Option Module) :
    Nat → LoadState → LoadOutcome
  | 0, _ => .fuelOut
  | fuel + 1, st =>
    match popNext st.stack st.visited with
    | none => .ok ⟨st.nodes, st.edges⟩
    | some (nx, stack') =>
      let st' : LoadState := { st with stack := stack', visited := nx :: st.visited }
      match st'.nodes.get? nx with
      | none => .ok ⟨st'.nodes, st'.edges⟩
      | some (t, d) =>
        match processRefs H files fuel nx (referencesOf t d) st' with
        | .ok st'' => loadLoop H files fuel st''
        | .panicMissing id => .panicMissing id
        | .pathPanic u => .pathPanic u
        | .fuelOut => .fuelOut

/-- The inputs of `SourceGraph::load` (the file loader is passed
separately). -/
structure LoadParams where
  scope : String
  expression : JsExpr
  hostFunctions : List FuneeIdentifier

/-- Model of `SourceGraph::load`: seed the graph with the root
`(scope, Expression(seed))` and run the DFS. -/
def loadGraph (files : String → Option Module) (params : LoadParams)
    (fuel : Nat) : LoadOutcome :=
  loadLoop params.hostFunctions files fuel
    { nodes := [(params.scope, .expr params.expression)]
      edges := []
      defsIndex := []
      stack := [0]
      visited := [] }

/-! ## Concrete file universes for the graph-builder claims -/

/-- Two modules that mutually re-export `x` from each other:
`/a.ts`: `export { x } from "./b.ts";` and `/b.ts`: `export { x } from "./a.ts";`. -/
def cycFiles : String → Option Module := fun u =>
  if u = "/a.ts" then some ⟨[.exportNamed [.named "x" none] (some "./b.ts")]⟩
  else if u = "/b.ts" then some ⟨[.exportNamed [.named "x" none] (some "./a.ts")]⟩
  else none

/-- Load request whose root expression references `x` in scope `/a.ts`. -/
def cycParams : LoadParams :=
  { scope := "/a.ts", expression := .ident ⟨"x", true⟩, hostFunctions := [] }

/-- The S4 deduplication universe: the entry module imports `a` and `b` from
two intermediaries, both of which re-export the same `helper` from `/u.ts`. -/
def s4Files : String → Option Module := fun u =>
  if u = "/entry.ts" then
    some ⟨[.importDecl [.named "a" none] "./m1.ts",
           .importDecl [.named "b" none] "./m2.ts"]⟩
  else if u = "/m1.ts" then
    some ⟨[.exportNamed [.named "helper" (some "a")] (some "./u.ts")]⟩
  else if u = "/m2.ts" then
    some ⟨[.exportNamed [.named "helper" (some "b")] (some "./u.ts")]⟩
  else if u = "/u.ts" then
    some ⟨[.exportDeclVar [⟨.pident ⟨"helper", false⟩, some (.lit "42")⟩]]⟩
  else none

/-- Load request whose root expression is `a + b` in scope `/entry.ts`. -/
def s4Params : LoadParams :=
  { scope := "/entry.ts"
    expression := .bin "+" (.ident ⟨"a", true⟩) (.ident ⟨"b", true⟩)
    hostFunctions := [] }

/-- A universe where the host entry `("funee", "log")` is reachable only
through an indirection whose source-level URI is `"./funee"`:
`entry.ts`: `import { log } from "./funee";`, and a loader-served module at
path `funee` defining its own `log`. -/
def hostEscapeFiles : String → Option Module := fun u =>
  if u = "entry.ts" then some ⟨[.importDecl [.named "log" none] "./funee"]⟩
  else if u = "funee" then
    some ⟨[.exportDeclVar [⟨.pident ⟨"log", false⟩, some (.lit "1")⟩]]⟩
  else none

/-- Load request referencing `log` in scope `entry.ts`, with host set
`{("funee", "log")}`. -/
def hostEscapeParams : LoadParams :=
  { scope := "entry.ts"
    expression := .ident ⟨"log", true⟩
    hostFunctions := [⟨"log", "funee"⟩] }

/-- On the two-module re-export cycle, the resolution loop alternates for ever
between `("x", "/a.ts")` and `("x", "/b.ts")`: it exhausts every fuel bound. -/
theorem resolveLoop_cyc (n : Nat) :
    resolveLoop [] cycFiles n ⟨"x", "/a.ts"⟩ = .fuelOut ∧
    resolveLoop [] cycFiles n ⟨"x", "/b.ts"⟩ = .fuelOut := by
  induction n with
  | zero => exact ⟨rfl, rfl⟩
  | succ n ih => exact ⟨ih.2, ih.1⟩

/-- The state of the load DFS right after the root of `cycParams` is popped
and marked visited. -/
def cycSt1 : LoadState :=
  { nodes := [("/a.ts", .expr (.ident ⟨"x", true⟩))]
    edges := []
    defsIndex := []
    stack := []
    visited := [0] }

theorem processRefs_cyc (n : Nat) :
    processRefs [] cycFiles n 0 [("x", ⟨"x", "/a.ts"⟩)] cycSt1 = .fuelOut := by
  have h := (resolveLoop_cyc n).1
  simp [processRefs, resolveReference, show isJsGlobal "x" = false from rfl, h]

/-- C1: on an input whose module files form a re-export cycle,
`SourceGraph::load` does *not* terminate with a `CircularIndirection` error:
the indirection-resolution loop has no revisit check and no
`CircularIndirection` error exists in the code, so the resolution of the
reference `("x", "/a.ts")` over the mutually re-exporting modules `/a.ts` and
`/b.ts` runs out of every fuel bound, i.e. `SourceGraph::load` never
returns on this input. -/
theorem C1_circular_indirection_diverges (fuel : Nat) :
    resolveLoop [] cycFiles fuel ⟨"x", "/a.ts"⟩ = .fuelOut ∧
    loadGraph cycFiles cycParams fuel = .fuelOut := by
  refine ⟨(resolveLoop_cyc fuel).1, ?_⟩
  cases fuel with
  | zero => rfl
  | succ n =>
    have hp := processRefs_cyc n
    unfold cycSt1 at hp
    simp [loadGraph, loadLoop, popNext, referencesOf, getReferencesFromDeclaration,
      freeE, dedupFirst, dedupAux, cycParams]
    rw [hp]

/-- C2 counterexample: in the S4 deduplication scenario the two references
`a` and `b` chase, through different intermediaries, to the same final
canonical identifier `("helper", "/u.ts")`, yet the graph built by
`SourceGraph::load` holds *two* nodes for that definition (nodes 1 and 2,
both `("/u.ts", helper's initializer)`), because the deduplication index is
keyed by the tentative identifiers `("a", "/entry.ts")` and
`("b", "/entry.ts")`, which differ. -/
theorem C2_counterexample :
    loadGraph s4Files s4Params 10 =
      .ok ⟨[("/entry.ts", .expr (.bin "+" (.ident ⟨"a", true⟩) (.ident ⟨"b", true⟩))),
            ("/u.ts", .varInit (.lit "42")),
            ("/u.ts", .varInit (.lit "42"))],
           [(0, 1, "a"), (0, 2, "b")]⟩ := rfl

/-- C2 (amended): `definitions_index` deduplicates by the *tentative*
canonical identifier (the referencing node's URI paired with the local name),
not by the final one: inserting a reference whose tentative identifier is
already indexed adds no node and only an edge to the indexed node, while a
fresh tentative identifier adds exactly one node and indexes it. -/
theorem C2_dedup_by_tentative_identifier (st : LoadState) (nx : Nat)
    (label : String) (tid : FuneeIdentifier) (ruri : String) (d : Declaration) :
    (∀ idx, lookupIndex st.defsIndex tid = some idx →
        (insertReference st nx label tid ruri d).nodes = st.nodes ∧
        (insertReference st nx label tid ruri d).edges =
          st.edges ++ [(nx, idx, label)]) ∧
    (lookupIndex st.defsIndex tid = none →
        (insertReference st nx label tid ruri d).nodes = st.nodes ++ [(ruri, d)] ∧
        (insertReference st nx label tid ruri d).edges =
          st.edges ++ [(nx, st.nodes.length, label)] ∧
        lookupIndex (insertReference st nx label tid ruri d).defsIndex tid =
          some st.nodes.length) := by
  constructor
  · intro idx h
    unfold insertReference
    rw [h]
    exact ⟨rfl, rfl⟩
  · intro h
    unfold insertReference
    rw [h]
    refine ⟨rfl, rfl, ?_⟩
    simp [lookupIndex]

/-- Closed witness for `C2_dedup_by_tentative_identifier`: a state whose index
already holds the tentative identifier receives only a new edge, and a fresh
tentative identifier in the empty state receives exactly one node. -/
theorem C2_dedup_witness :
    (lookupIndex [(⟨"n", "u"⟩, 0)] ⟨"n", "u"⟩ = some 0 ∧
      (insertReference ⟨[("u", .hostFn "h")], [], [(⟨"n", "u"⟩, 0)], [], []⟩
          0 "n" ⟨"n", "u"⟩ "u" (.hostFn "h")).nodes = [("u", .hostFn "h")]) ∧
    (lookupIndex ([] : List (FuneeIdentifier × Nat)) ⟨"n", "u"⟩ = none ∧
      (insertReference ⟨[], [], [], [], []⟩ 0 "n" ⟨"n", "u"⟩ "u"
          (.hostFn "h")).nodes = [("u", .hostFn "h")]) := by
  constructor
  · exact ⟨rfl,
      ((C2_dedup_by_tentative_identifier
          ⟨[("u", .hostFn "h")], [], [(⟨"n", "u"⟩, 0)], [], []⟩
          0 "n" ⟨"n", "u"⟩ "u" (.hostFn "h")).1 0 rfl).1⟩
  · exact ⟨rfl,
      ((C2_dedup_by_tentative_identifier ⟨[], [], [], [], []⟩
          0 "n" ⟨"n", "u"⟩ "u" (.hostFn "h")).2 rfl).1⟩

/-- C6 counterexample: with host set `{("log", "funee")}`, the reference to
`log` in `entry.ts` resolves through the indirection
`("log", "./funee")` whose URI only equals `"funee"` *after* relative-path
adjustment; the host check (performed before adjustment) misses it, the
loader is consulted at `"funee"`, and the node created for the host
identifier carries that module's user-code declaration `var log = 1`,
not a `HostFn`. -/
theorem C6_counterexample :
    loadGraph hostEscapeFiles hostEscapeParams 10 =
      .ok ⟨[("entry.ts", .expr (.ident ⟨"log", true⟩)),
            ("funee", .varInit (.lit "1"))],
           [(0, 1, "log")]⟩ := rfl

/-- C6 (amended): the host check applies to the *unadjusted* identifiers: a
tentative reference that is itself a host entry resolves to
`HostFn(ref.name)` for every file universe (so the loader is never consulted
for it), and an indirection target that is a host entry as written in the
source stops the loop with `HostFn(i.name)` without loading the target's
module.  (The counterexample shows a host identifier reached only after
path adjustment escapes both checks.) -/
theorem C6_host_check_unadjusted :
    (∀ (H : List FuneeIdentifier) (files : String → Option Module) (fuel : Nat)
        (ref : FuneeIdentifier), ref ∈ H →
        resolveReference H files fuel ref = .ok (.hostFn ref.name) ref.uri) ∧
    (∀ (H : List FuneeIdentifier) (files : String → Option Module) (fuel : Nat)
        (cur i : FuneeIdentifier) (md : ModuleDeclaration),
        loadDeclaration files cur = some md →
        md.declaration = .funeeIdentifier i → i ∈ H →
        resolveLoop H files (fuel + 1) cur = .ok (.hostFn i.name) cur.uri) := by
  constructor
  · intro H files fuel ref href
    unfold resolveReference
    rw [if_pos href]
  · intro H files fuel cur i md hload hdecl hin
    unfold resolveLoop
    simp only [hload, hdecl, if_pos hin]

/-- Closed witness for `C6_host_check_unadjusted`: the direct host hit
`("log", "funee")` resolves to its trampoline declaration over the empty file
universe, and an indirection whose target is written exactly as a host entry
stops with the host declaration without loading the target module. -/
theorem C6_host_check_witness :
    resolveReference [⟨"log", "funee"⟩] (fun _ => none) 0 ⟨"log", "funee"⟩ =
      .ok (.hostFn "log") "funee" ∧
    resolveLoop [⟨"log", "funee"⟩]
        (fun u => if u = "/std.ts" then
            some ⟨[.exportNamed [.named "log" none] (some "funee")]⟩
          else none)
        1 ⟨"log", "/std.ts"⟩ = .ok (.hostFn "log") "/std.ts" := by
  constructor
  · exact C6_host_check_unadjusted.1 [⟨"log", "funee"⟩] (fun _ => none) 0
      ⟨"log", "funee"⟩ (by simp)
  · exact C6_host_check_unadjusted.2 [⟨"log", "funee"⟩] _ 0 ⟨"log", "/std.ts"⟩
      ⟨"log", "funee"⟩ ⟨true, .funeeIdentifier ⟨"log", "funee"⟩⟩ rfl rfl (by simp)

/-- The body of the extractor's no-source named-export case, as actually
invoked: `get_module_declarations` passes the empty string as the current
URI. -/
def c5Module : Module := ⟨[.exportNamed [.named "a" (some "b")] none]⟩

/-- C5 counterexample: for a module whose body is `export { a as b };`, the
extractor maps `"b"` to an indirection whose canonical identifier is
`("a", "")` — the hardcoded empty current URI — and not `("a", u)` for the
module's own URI `u` (e.g. `"/m.ts"`). -/
theorem C5_counterexample :
    hmLookup (getModuleDeclarations c5Module) "b" =
      some ⟨true, .funeeIdentifier ⟨"a", ""⟩⟩ ∧ ("" : String) ≠ "/m.ts" :=
  ⟨rfl, by decide⟩

/-- C5 (amended): a named export without a source clause records the
*current-URI argument* in the indirection — and `get_module_declarations`
always passes the empty string for it, so the recorded URI is `""`, not the
module's own URI. -/
theorem C5_export_no_source_records_empty_uri (u a b : String)
    (items : List ModuleItemM) :
    getModuleDeclarationsFromModuleItem u (.exportNamed [.named a (some b)] none) =
      [(b, ⟨true, .funeeIdentifier ⟨a, u⟩⟩)] ∧
    getModuleDeclarations ⟨.exportNamed [.named a (some b)] none :: items⟩ =
      (b, ⟨true, .funeeIdentifier ⟨a, ""⟩⟩) :: getModuleDeclarations ⟨items⟩ :=
  ⟨rfl, rfl⟩

/-! ## Macro expansion and emission

The deno_core runtime that evaluates a macro function and the swc parser that
re-parses its result string are external components, passed in as the
parameters `runM` (returning `none` on an execution error) and `parseE`
(returning `none` on a parse error).  The swc code generator behind
`expr_to_code` is modelled by the structural printer below. -/

/-- A closure argument handed to the macro runtime: expression code plus a
`local name → (uri, export name)` reference map. -/
structure MacroClosure where
  expression : String
  references : List (String × (String × String))

/-- The parsed result of a macro execution. -/
structure MacroResult where
  expression : String
  references : List (String × (String × String))

/-- Code form of a pattern. -/
def printPat : Pat → String
  | .pident i => i.sym
  | .prest p => "..." ++ printPat p

mutual
/-- Code form of an expression (the model of swc codegen followed by
`expr_to_code`'s trim of the trailing semicolon). -/
def printE : JsExpr → String
  | .ident i => i.sym
  | .lit v => v
  | .call c args => printCallee c ++ "(" ++ printArgs args ++ ")"
  | .member o p => printE o ++ "." ++ p
  | .fnE n f =>
      "function " ++ (match n with | some i => i.sym | none => "") ++ printFn f
  | .arrow ps b =>
      "(" ++ joinWith ", " (ps.map printPat) ++ ") => " ++ printE b
  | .bin op l r => printE l ++ " " ++ op ++ " " ++ printE r

def printCallee : Callee → String
  | .cexpr e => printE e
  | .csuper => "super"

def printArgs : JsArgs → String
  | .nil => ""
  | .cons sp e rest =>
      (if sp then "..." else "") ++ printE e ++
        (match rest with
         | .nil => ""
         | .cons _ _ _ => ", " ++ printArgs rest)

def printFn : JsFunction → String
  | .mk ps body =>
      "(" ++ joinWith ", " (ps.map printPat) ++ ")\x7b " ++ printStmts body ++ " \x7d"

def printStmts : Stmts → String
  | .nil => ""
  | .cons s rest =>
      printStmt s ++ (match rest with
                      | .nil => ""
                      | .cons _ _ => " " ++ printStmts rest)

def printStmt : Stmt → String
  | .sexpr e => printE e ++ ";"
  | .sret e => "return " ++ printE e ++ ";"
  | .sfn i f => "function " ++ i.sym ++ printFn f
  | .svar p e => "var " ++ printPat p ++ " = " ++ printE e ++ ";"
end

/-- The declaration payload of node `i`. -/
def SGraph.declAt (g : SGraph) (i : Nat) : Option Declaration :=
  (g.nodes.get? i).map (·.2)

/-- Overwrite the declaration payload of node `i`, keeping its URI
(`self.graph[nx].1 = …`). -/
def setDecl (g : SGraph) (i : Nat) (d : Declaration) : SGraph :=
  match g.nodes.get? i with
  | some p => { g with nodes := g.nodes.set i (p.1, d) }
  | none => g

/-- The `edge_targets` map: `(source, label) → target`, built by inserting
every edge in iteration order into a `HashMap` (a later edge with the same
key overwrites an earlier one). -/
def edgeTarget (edges : List (Nat × Nat × String)) (nx : Nat) (sym : String) :
    Option Nat :=
  (edges.reverse.find? (fun e => e.1 == nx && e.2.2 == sym)).map (·.2.1)

/-- Argument list as a Lean list of `(spread, expression)` pairs. -/
def argsList : JsArgs → List (Bool × JsExpr)
  | .nil => []
  | .cons sp e rest => (sp, e) :: argsList rest

/-- Whether an optional declaration is a `Macro`. -/
def isMacroDecl : Option Declaration → Bool
  | some (.macroDecl _) => true
  | _ => false

/-- Argument lowering of `execute_macro_call`: a bare identifier with an
outgoing edge is replaced by the code of its definition site; everything else
is emitted directly; the reference map is always empty (the `TODO: track
actual references` in the source). -/
def macroArgClosures (et : List (Nat × Nat × String)) (g : SGraph)
    (sourceNode : Nat) (args : JsArgs) : List MacroClosure :=
  (argsList args).map fun a =>
    let exprCode :=
      match a.2 with
      | .ident i =>
          match edgeTarget et sourceNode i.sym with
          | some t =>
              match g.declAt t with
              | some (.varInit de) => printE de
              | some (.fnExpr n f) => printE (.fnE n f)
              | some (.expr de) => printE de
              | _ => printE a.2
          | none => printE a.2
      | _ => printE a.2
    { expression := exprCode, references := [] }

/-- Model of `SourceGraph::execute_macro_call`: emit the macro function's code, lower
the arguments, run the macro, and re-parse the resulting expression string.
Any failure (macro execution error, or unparseable result) yields `none`. -/
def executeMacroCall (runM : String → List MacroClosure → Option MacroResult)
    (parseE : String → Option JsExpr) (et : List (Nat × Nat × String))
    (g : SGraph) (sourceNode macroNode : Nat) (args : JsArgs) :
    Option JsExpr :=
  match g.declAt macroNode with
  | some (.macroDecl mfn) =>
      match runM (printE mfn) (macroArgClosures et g sourceNode args) with
      | some r => parseE r.expression
      | none => none
  | _ => none

/-- The body of `expand_macros`' per-node loop: a node whose declaration is a
`VarInit` that is entirely a call with a bare-identifier callee, whose label
has an outgoing edge (in the pre-pass `edge_targets`) to a `Macro` node, is
expanded; on success its declaration is overwritten with
`VarInit(parsed result)`, otherwise the graph is left unchanged. -/
def macroStep (runM : String → List MacroClosure → Option MacroResult)
    (parseE : String → Option JsExpr) (et : List (Nat × Nat × String))
    (g : SGraph) (nx : Nat) : SGraph :=
  match g.declAt nx with
  | some (.varInit e) =>
      match e with
      | .call (.cexpr ce) args =>
          match ce with
          | .ident id =>
              match edgeTarget et nx id.sym with
              | some t =>
                  if isMacroDecl (g.declAt t) then
                    match executeMacroCall runM parseE et g nx t args with
                    | some res => setDecl g nx (.varInit res)
                    | none => g
                  else g
              | none => g
          | _ => g
      | _ => g
  | _ => g

/-- The expansion pass truncated to the first `k` node indices. -/
def expandUpTo (runM : String → List MacroClosure → Option MacroResult)
    (parseE : String → Option JsExpr) (g : SGraph) (k : Nat) : SGraph :=
  (List.range k).foldl (macroStep runM parseE g.edges) g

/-- Model of `expand_macros`: one pass over the node indices collected at entry, with
`edge_targets` built once from the entry edges. -/
def expandMacros (runM : String → List MacroClosure → Option MacroResult)
    (parseE : String → Option JsExpr) (g : SGraph) : SGraph :=
  expandUpTo runM parseE g g.nodes.length

/-- The outgoing neighbours of a node, in edge insertion order (petgraph's
`DfsPostOrder` explores them in this order). -/
def childrenOf (g : SGraph) (nx : Nat) : List Nat :=
  (g.edges.filter (fun e => e.1 == nx)).map (·.2.1)

/-- Recursive post-order DFS (`DfsPostOrder`), with fuel bounding the
recursion depth. -/
def poVisit (g : SGraph) : Nat → Nat → List Nat → List Nat × List Nat
  | 0, _, vis => ([], vis)
  | fuel + 1, nx, vis =>
      if nx ∈ vis then ([], vis)
      else
        let start : List Nat × List Nat := ([], nx :: vis)
        let r :=
          (childrenOf g nx).foldl
            (fun acc c =>
              let r2 := poVisit g fuel c acc.2
              (acc.1 ++ r2.1, r2.2))
            start
        (r.1 ++ [nx], r.2)

/-- Post-order visitation sequence from the root. -/
def postorder (g : SGraph) (root : Nat) : List Nat :=
  (poVisit g (g.nodes.length + 1) root []).1

/-- The rename map of a node: each outgoing edge's label mapped to the
target's synthetic name (a duplicate label keeps its first-inserted edge,
matching the `HashMap` collected from the reverse-order edge iterator). -/
def renameMapFor (g : SGraph) (nx : Nat) : RenMap :=
  (g.edges.filter (fun e => e.1 == nx)).map
    fun e => (e.2.2, "declaration_" ++ toString e.2.1)

/-- The emission loop of `into_js_execution_code`: walk the post-order
sequence, skip `Macro` and `ClosureValue` nodes, rename each remaining
declaration by its edge map and lower it under `declaration_<index>`. -/
def emitItems (g : SGraph) (order : List Nat) : List Stmt :=
  order.foldl
    (fun acc nx =>
      match g.declAt nx with
      | none => acc
      | some d =>
          match d with
          | .macroDecl _ => acc
          | .closureValue _ _ => acc
          | _ =>
              acc ++ [(renameReferencesInDeclaration (renameMapFor g nx) d).intoModuleItem
                        ("declaration_" ++ toString nx)])
    []

/-- The inline source-map suffix: the base64 payload is produced by the
external source-map library and modelled as opaque (empty). -/
def inlineSourceMapComment : String :=
  "\n//# sourceMappingURL=data:application/json;base64,"

/-- Rendering of an emitted module: one statement per line plus the source
map comment. -/
def printBundle (g : SGraph) (root : Nat) : String :=
  joinWith "\n" ((emitItems g (postorder g root)).map printStmt) ++
    inlineSourceMapComment

/-- Model of `SourceGraph::into_js_execution_code`: expand all macro calls, then emit
the post-order walk as a single script string. -/
def intoJsExecutionCode (runM : String → List MacroClosure → Option MacroResult)
    (parseE : String → Option JsExpr) (g : SGraph) (root : Nat) : String :=
  printBundle (expandMacros runM parseE g) root

/-- The detection predicate of `expand_macros`, over an explicit
`edge_targets` source: node `i`'s declaration is a variable initializer whose
entire initializer is a call whose callee is a bare identifier with an
outgoing edge of that label to a `Macro` node. -/
def isMacroAppAtBG (et : List (Nat × Nat × String)) (g : SGraph) (i : Nat) :
    Bool :=
  match g.declAt i with
  | some (.varInit e) =>
      match e with
      | .call (.cexpr ce) _ =>
          match ce with
          | .ident id =>
              match edgeTarget et i id.sym with
              | some t => isMacroDecl (g.declAt t)
              | none => false
          | _ => false
      | _ => false
  | _ => false

/-- The detection predicate of `expand_macros`, as the spec's words state it:
node `i`'s declaration is a variable initializer whose entire initializer is
a call whose callee is a bare identifier with an outgoing edge of that label
to a `Macro` node. -/
def isMacroAppAtB (g : SGraph) (i : Nat) : Bool :=
  isMacroAppAtBG g.edges g i

theorem setDecl_edges (g : SGraph) (i : Nat) (d : Declaration) :
    (setDecl g i d).edges = g.edges := by
  unfold setDecl
  split <;> rfl

theorem setDecl_length (g : SGraph) (i : Nat) (d : Declaration) :
    (setDecl g i d).nodes.length = g.nodes.length := by
  unfold setDecl
  split <;> simp

theorem setDecl_fst (g : SGraph) (i : Nat) (d : Declaration) (j : Nat) :
    ((setDecl g i d).nodes.get? j).map Prod.fst =
      (g.nodes.get? j).map Prod.fst := by
  unfold setDecl
  split
  · rename_i p heq
    dsimp only
    by_cases hji : i = j
    · subst hji
      rw [List.get?_set_eq, heq]
      rfl
    · rw [List.get?_set_ne _ _ hji]
  · rfl

theorem setDecl_declAt_ne (g : SGraph) (i : Nat) (d : Declaration) (j : Nat)
    (h : i ≠ j) : (setDecl g i d).declAt j = g.declAt j := by
  unfold setDecl SGraph.declAt
  split
  · dsimp only
    rw [List.get?_set_ne _ _ h]
  · rfl

theorem setDecl_declAt_of_some (g : SGraph) (i : Nat) (d : Declaration)
    (p : String × Declaration) (hp : g.nodes.get? i = some p) :
    (setDecl g i d).declAt i = some d := by
  unfold setDecl SGraph.declAt
  rw [hp]
  dsimp only
  rw [List.get?_set_eq, hp]
  rfl

/-- Complete case analysis of one expansion step: either the graph is left
unchanged, or the node had the full macro-application shape, execution and
re-parsing succeeded, and the step overwrote the node's declaration. -/
theorem macroStep_cases (r : String → List MacroClosure → Option MacroResult)
    (p : String → Option JsExpr) (et : List (Nat × Nat × String)) (g : SGraph)
    (nx : Nat) :
    macroStep r p et g nx = g ∨
    ∃ id args t res,
      g.declAt nx = some (.varInit (.call (.cexpr (.ident id)) args)) ∧
      edgeTarget et nx id.sym = some t ∧
      isMacroDecl (g.declAt t) = true ∧
      executeMacroCall r p et g nx t args = some res ∧
      macroStep r p et g nx = setDecl g nx (.varInit res) := by
  unfold macroStep
  cases hd : g.declAt nx with
  | none => left; rfl
  | some d =>
    cases d with
    | expr e => left; rfl
    | fnExpr n f => left; rfl
    | fnDecl n f => left; rfl
    | varInit e =>
      cases e with
      | ident i2 => left; rfl
      | lit v => left; rfl
      | call c args =>
        cases c with
        | csuper => left; rfl
        | cexpr ce =>
          cases ce with
          | ident id =>
            dsimp only
            cases he : edgeTarget et nx id.sym with
            | none => left; rfl
            | some t =>
              dsimp only
              cases hm : isMacroDecl (g.declAt t) with
              | false => left; rfl
              | true =>
                cases hex : executeMacroCall r p et g nx t args with
                | none => left; rfl
                | some res =>
                  right
                  exact ⟨id, args, t, res, rfl, he, hm, hex, rfl⟩
          | lit v => left; rfl
          | call c2 a2 => left; rfl
          | member o pr => left; rfl
          | fnE n f => left; rfl
          | arrow ps b => left; rfl
          | bin op l rr => left; rfl
      | member o pr => left; rfl
      | fnE n f => left; rfl
      | arrow ps b => left; rfl
      | bin op l rr => left; rfl
    | funeeIdentifier i2 => left; rfl
    | hostFn n => left; rfl
    | macroDecl e => left; rfl
    | closureValue a b => left; rfl

theorem macroStep_edges (r : String → List MacroClosure → Option MacroResult)
    (p : String → Option JsExpr) (et : List (Nat × Nat × String)) (g : SGraph)
    (nx : Nat) : (macroStep r p et g nx).edges = g.edges := by
  rcases macroStep_cases r p et g nx with h | ⟨_, _, _, _, _, _, _, _, h⟩ <;>
    rw [h]
  apply setDecl_edges

theorem macroStep_length (r : String → List MacroClosure → Option MacroResult)
    (p : String → Option JsExpr) (et : List (Nat × Nat × String)) (g : SGraph)
    (nx : Nat) : (macroStep r p et g nx).nodes.length = g.nodes.length := by
  rcases macroStep_cases r p et g nx with h | ⟨_, _, _, _, _, _, _, _, h⟩ <;>
    rw [h]
  apply setDecl_length

theorem macroStep_fst (r : String → List MacroClosure → Option MacroResult)
    (p : String → Option JsExpr) (et : List (Nat × Nat × String)) (g : SGraph)
    (nx : Nat) (j : Nat) :
    ((macroStep r p et g nx).nodes.get? j).map Prod.fst =
      (g.nodes.get? j).map Prod.fst := by
  rcases macroStep_cases r p et g nx with h | ⟨_, _, _, _, _, _, _, _, h⟩ <;>
    rw [h]
  apply setDecl_fst

theorem macroStep_declAt_ne (r : String → List MacroClosure → Option MacroResult)
    (p : String → Option JsExpr) (et : List (Nat × Nat × String)) (g : SGraph)
    (nx : Nat) (j : Nat) (h : j ≠ nx) :
    (macroStep r p et g nx).declAt j = g.declAt j := by
  rcases macroStep_cases r p et g nx with hc | ⟨_, _, _, _, _, _, _, _, hc⟩ <;>
    rw [hc]
  exact setDecl_declAt_ne _ _ _ _ (Ne.symm h)

/-- A node whose declaration exists has an indexed entry. -/
theorem declAt_some_get (g : SGraph) (i : Nat) (d : Declaration)
    (h : g.declAt i = some d) : ∃ p, g.nodes.get? i = some p := by
  unfold SGraph.declAt at h
  cases hq : g.nodes.get? i with
  | none => rw [hq] at h; cases h
  | some p => exact ⟨p, rfl⟩

theorem macroStep_isMacro (r : String → List MacroClosure → Option MacroResult)
    (p : String → Option JsExpr) (et : List (Nat × Nat × String)) (g : SGraph)
    (nx : Nat) (j : Nat) :
    isMacroDecl ((macroStep r p et g nx).declAt j) = isMacroDecl (g.declAt j) := by
  by_cases hj : j = nx
  · subst hj
    rcases macroStep_cases r p et g j with hc |
      ⟨id, args, t, res, hd, _, _, _, hc⟩
    · rw [hc]
    · obtain ⟨q, hq⟩ := declAt_some_get g j _ hd
      rw [hc, setDecl_declAt_of_some _ _ _ _ hq, hd]
      rfl
  · rw [macroStep_declAt_ne _ _ _ _ _ _ hj]

theorem expandUpTo_succ (r : String → List MacroClosure → Option MacroResult)
    (p : String → Option JsExpr) (g : SGraph) (k : Nat) :
    expandUpTo r p g (k + 1) = macroStep r p g.edges (expandUpTo r p g k) k := by
  unfold expandUpTo
  rw [List.range_succ, List.foldl_append]
  rfl

theorem expandUpTo_edges (r : String → List MacroClosure → Option MacroResult)
    (p : String → Option JsExpr) (g : SGraph) (k : Nat) :
    (expandUpTo r p g k).edges = g.edges := by
  induction k with
  | zero => rfl
  | succ k ih => rw [expandUpTo_succ, macroStep_edges, ih]

theorem expandUpTo_length (r : String → List MacroClosure → Option MacroResult)
    (p : String → Option JsExpr) (g : SGraph) (k : Nat) :
    (expandUpTo r p g k).nodes.length = g.nodes.length := by
  induction k with
  | zero => rfl
  | succ k ih => rw [expandUpTo_succ, macroStep_length, ih]

theorem expandUpTo_fst (r : String → List MacroClosure → Option MacroResult)
    (p : String → Option JsExpr) (g : SGraph) (k : Nat) (j : Nat) :
    ((expandUpTo r p g k).nodes.get? j).map Prod.fst =
      (g.nodes.get? j).map Prod.fst := by
  induction k with
  | zero => rfl
  | succ k ih => rw [expandUpTo_succ, macroStep_fst, ih]

theorem expandUpTo_isMacro (r : String → List MacroClosure → Option MacroResult)
    (p : String → Option JsExpr) (g : SGraph) (k : Nat) (j : Nat) :
    isMacroDecl ((expandUpTo r p g k).declAt j) = isMacroDecl (g.declAt j) := by
  induction k with
  | zero => rfl
  | succ k ih => rw [expandUpTo_succ, macroStep_isMacro, ih]

theorem expandUpTo_declAt_ge (r : String → List MacroClosure → Option MacroResult)
    (p : String → Option JsExpr) (g : SGraph) (k : Nat) (j : Nat)
    (h : k ≤ j) : (expandUpTo r p g k).declAt j = g.declAt j := by
  induction k with
  | zero => rfl
  | succ k ih =>
    rw [expandUpTo_succ, macroStep_declAt_ne _ _ _ _ _ _ (by omega),
      ih (by omega)]

theorem expandUpTo_declAt_after (r : String → List MacroClosure → Option MacroResult)
    (p : String → Option JsExpr) (g : SGraph) (i : Nat) (m : Nat)
    (h : i + 1 ≤ m) :
    (expandUpTo r p g m).declAt i = (expandUpTo r p g (i + 1)).declAt i := by
  induction m with
  | zero => omega
  | succ m ih =>
    by_cases hm : i + 1 ≤ m
    · rw [expandUpTo_succ, macroStep_declAt_ne _ _ _ _ _ _ (by omega), ih hm]
    · have : m = i := by omega
      subst this
      rfl

/-- Single-pass characterization of `expand_macros`: the final declaration of
node `i` is exactly the result of the one expansion attempt made at `i`,
against the graph state left by the attempts at nodes `0 … i-1`. -/
theorem expand_declAt_char (r : String → List MacroClosure → Option MacroResult)
    (p : String → Option JsExpr) (g : SGraph) (i : Nat) :
    (expandMacros r p g).declAt i =
      (macroStep r p g.edges (expandUpTo r p g i) i).declAt i := by
  unfold expandMacros
  by_cases h : i + 1 ≤ g.nodes.length
  · rw [expandUpTo_declAt_after _ _ _ _ _ h, expandUpTo_succ]
  · have hlen : g.nodes.length ≤ i := by omega
    have hnone : g.declAt i = none := by
      unfold SGraph.declAt
      rw [List.get?_eq_none.2 hlen]
      rfl
    have hG : (expandUpTo r p g i).declAt i = none := by
      rw [expandUpTo_declAt_ge _ _ _ _ _ (le_refl i), hnone]
    have hms : macroStep r p g.edges (expandUpTo r p g i) i =
        expandUpTo r p g i := by
      unfold macroStep
      rw [hG]
    rw [expandUpTo_declAt_ge _ _ _ _ _ hlen, hnone, hms, hG]

/-- A step at a node that does not have the macro-application shape (relative
to the original declaration and edges) leaves the node's declaration
unchanged; stated for the intermediate graph at step `i`. -/
theorem expand_not_app_unchanged (r : String → List MacroClosure → Option MacroResult)
    (p : String → Option JsExpr) (g : SGraph) (i : Nat)
    (h : isMacroAppAtB g i = false) :
    (expandMacros r p g).declAt i = g.declAt i := by
  rw [expand_declAt_char]
  have hGi : (expandUpTo r p g i).declAt i = g.declAt i :=
    expandUpTo_declAt_ge _ _ _ _ _ (le_refl i)
  rcases macroStep_cases r p g.edges (expandUpTo r p g i) i with hc |
    ⟨id, args, t, res, hd, he, hm, _, _⟩
  · rw [hc, hGi]
  · exfalso
    rw [hGi] at hd
    unfold isMacroAppAtB isMacroAppAtBG at h
    rw [hd] at h
    dsimp only at h
    rw [he] at h
    dsimp only at h
    rw [expandUpTo_isMacro] at hm
    rw [hm] at h
    cases h

/-- A step at a node with the full application shape whose execution and
re-parse succeed overwrites the node's declaration. -/
theorem macroStep_app_success (r : String → List MacroClosure → Option MacroResult)
    (p : String → Option JsExpr) (et : List (Nat × Nat × String)) (G : SGraph)
    (i : Nat) (id : JsIdent) (args : JsArgs) (t : Nat) (res : JsExpr)
    (hGi : G.declAt i = some (.varInit (.call (.cexpr (.ident id)) args)))
    (he : edgeTarget et i id.sym = some t)
    (hm : isMacroDecl (G.declAt t) = true)
    (hex : executeMacroCall r p et G i t args = some res) :
    macroStep r p et G i = setDecl G i (.varInit res) := by
  unfold macroStep
  rw [hGi]
  dsimp only
  rw [he]
  dsimp only
  rw [hm, hex]
  exact rfl

/-- A step at a node with the full application shape whose execution fails is
skipped: the graph is returned unchanged. -/
theorem macroStep_app_fail (r : String → List MacroClosure → Option MacroResult)
    (p : String → Option JsExpr) (et : List (Nat × Nat × String)) (G : SGraph)
    (i : Nat) (id : JsIdent) (args : JsArgs) (t : Nat)
    (hGi : G.declAt i = some (.varInit (.call (.cexpr (.ident id)) args)))
    (he : edgeTarget et i id.sym = some t)
    (hm : isMacroDecl (G.declAt t) = true)
    (hex : executeMacroCall r p et G i t args = none) :
    macroStep r p et G i = G := by
  unfold macroStep
  rw [hGi]
  dsimp only
  rw [he]
  dsimp only
  rw [hm, hex]
  exact rfl

/-- The function `execute_macro_call` consults the runtime's result only through its
`expression` field: two runtimes agreeing on expressions give the same
outcome. -/
theorem executeMacroCall_congr (r1 r2 : String → List MacroClosure → Option MacroResult)
    (p : String → Option JsExpr) (et : List (Nat × Nat × String)) (g : SGraph)
    (s t : Nat) (args : JsArgs)
    (h : ∀ c a, Option.map MacroResult.expression (r1 c a) =
        Option.map MacroResult.expression (r2 c a)) :
    executeMacroCall r1 p et g s t args = executeMacroCall r2 p et g s t args := by
  unfold executeMacroCall
  cases hd : g.declAt t with
  | none => rfl
  | some d =>
    cases d with
    | expr e => rfl
    | fnExpr n f => rfl
    | fnDecl n f => rfl
    | varInit e => rfl
    | funeeIdentifier i2 => rfl
    | hostFn n => rfl
    | closureValue a b => rfl
    | macroDecl mfn =>
      dsimp only
      have hh := h (printE mfn) (macroArgClosures et g s args)
      cases h1 : r1 (printE mfn) (macroArgClosures et g s args) with
      | none =>
        cases h2 : r2 (printE mfn) (macroArgClosures et g s args) with
        | none => rfl
        | some b => rw [h1, h2] at hh; cases hh
      | some a =>
        cases h2 : r2 (printE mfn) (macroArgClosures et g s args) with
        | none => rw [h1, h2] at hh; cases hh
        | some b =>
          rw [h1, h2] at hh
          have hexp : a.expression = b.expression := by
            simpa using hh
          dsimp only
          rw [hexp]

/-- One expansion step is insensitive to the runtime's reference maps. -/
theorem macroStep_congr (r1 r2 : String → List MacroClosure → Option MacroResult)
    (p : String → Option JsExpr) (et : List (Nat × Nat × String)) (g : SGraph)
    (nx : Nat)
    (h : ∀ c a, Option.map MacroResult.expression (r1 c a) =
        Option.map MacroResult.expression (r2 c a)) :
    macroStep r1 p et g nx = macroStep r2 p et g nx := by
  unfold macroStep
  cases hd : g.declAt nx with
  | none => rfl
  | some d =>
    cases d with
    | expr e => rfl
    | fnExpr n f => rfl
    | fnDecl n f => rfl
    | funeeIdentifier i2 => rfl
    | hostFn n => rfl
    | macroDecl e => rfl
    | closureValue a b => rfl
    | varInit e =>
      cases e with
      | ident i2 => rfl
      | lit v => rfl
      | member o pr => rfl
      | fnE n f => rfl
      | arrow ps b => rfl
      | bin op l rr => rfl
      | call c args =>
        cases c with
        | csuper => rfl
        | cexpr ce =>
          cases ce with
          | lit v => rfl
          | call c2 a2 => rfl
          | member o pr => rfl
          | fnE n f => rfl
          | arrow ps b => rfl
          | bin op l rr => rfl
          | ident id =>
            dsimp only
            cases he : edgeTarget et nx id.sym with
            | none => rfl
            | some t =>
              dsimp only
              rw [executeMacroCall_congr r1 r2 p et g nx t args h]

/-- The truncated pass is insensitive to the runtime's reference maps. -/
theorem expandUpTo_congr (r1 r2 : String → List MacroClosure → Option MacroResult)
    (p : String → Option JsExpr) (g : SGraph) (k : Nat)
    (h : ∀ c a, Option.map MacroResult.expression (r1 c a) =
        Option.map MacroResult.expression (r2 c a)) :
    expandUpTo r1 p g k = expandUpTo r2 p g k := by
  induction k with
  | zero => rfl
  | succ k ih =>
    rw [expandUpTo_succ, expandUpTo_succ, ih, macroStep_congr r1 r2 _ _ _ _ h]

/-- The whole pass is insensitive to the runtime's reference maps. -/
theorem expandMacros_congr (r1 r2 : String → List MacroClosure → Option MacroResult)
    (p : String → Option JsExpr) (g : SGraph)
    (h : ∀ c a, Option.map MacroResult.expression (r1 c a) =
        Option.map MacroResult.expression (r2 c a)) :
    expandMacros r1 p g = expandMacros r2 p g := by
  unfold expandMacros
  exact expandUpTo_congr r1 r2 p g g.nodes.length h

/-! ## Concrete expansion inputs -/

/-- A three-node graph: root expression `v`, a node `var v = f(5)` whose
callee edge `f` targets a `Macro` node. -/
def mgraph : SGraph :=
  ⟨[("/e.ts", .expr (.ident ⟨"v", true⟩)),
    ("/e.ts", .varInit (.call (.cexpr (.ident ⟨"f", true⟩)) (.cons false (.lit "5") .nil))),
    ("/lib.ts", .macroDecl (.arrow [.pident ⟨"x", false⟩] (.lit "0")))],
   [(0, 1, "v"), (1, 2, "f")]⟩

/-- A runtime stand-in that fails every macro invocation. -/
def runFail : String → List MacroClosure → Option MacroResult := fun _ _ => none

/-- A runtime stand-in whose macro always returns the expression `f(6)` —
again a call to the macro `f`. -/
def runSelf : String → List MacroClosure → Option MacroResult :=
  fun _ _ => some ⟨"f(6)", []⟩

/-- Like `runSelf` but with a non-empty reference map in the result. -/
def runSelfRefs : String → List MacroClosure → Option MacroResult :=
  fun _ _ => some ⟨"f(6)", [("a", ("/u.ts", "a"))]⟩

/-- A parser stand-in defined on the single result string the examples
produce. -/
def parseStub : String → Option JsExpr := fun s =>
  if s = "f(6)" then
    some (.call (.cexpr (.ident ⟨"f", true⟩)) (.cons false (.lit "6") .nil))
  else none

/-- C3 counterexample: a build in which the only macro invocation fails
(`runFail`) does not abort — `into_js_execution_code` still returns a bundle
string, with the macro call left unexpanded inside it (and the macro
application still present in the graph). -/
theorem C3_counterexample :
    intoJsExecutionCode runFail parseStub mgraph 0 =
      "var declaration_1 = declaration_2(5);\ndeclaration_1;\n//# sourceMappingURL=data:application/json;base64," ∧
    isMacroAppAtB (expandMacros runFail parseStub mgraph) 1 = true :=
  ⟨rfl, rfl⟩

/-- C3 (amended): a failing macro invocation (the runtime errors or its
result does not parse) is logged and skipped — the node keeps its original
declaration, expansion continues, and a bundle string is still produced (the
emission of the partially-expanded graph). -/
theorem C3_failing_macro_skipped (r : String → List MacroClosure → Option MacroResult)
    (p : String → Option JsExpr) (g : SGraph) (i : Nat) (id : JsIdent)
    (args : JsArgs) (t : Nat)
    (h1 : g.declAt i = some (.varInit (.call (.cexpr (.ident id)) args)))
    (h2 : edgeTarget g.edges i id.sym = some t)
    (h3 : isMacroDecl (g.declAt t) = true)
    (h4 : executeMacroCall r p g.edges (expandUpTo r p g i) i t args = none) :
    (expandMacros r p g).declAt i = g.declAt i ∧
    ∀ root, intoJsExecutionCode r p g root = printBundle (expandMacros r p g) root := by
  constructor
  · rw [expand_declAt_char]
    have hGi : (expandUpTo r p g i).declAt i =
        some (.varInit (.call (.cexpr (.ident id)) args)) := by
      rw [expandUpTo_declAt_ge _ _ _ _ _ (le_refl i)]
      exact h1
    have hGm : isMacroDecl ((expandUpTo r p g i).declAt t) = true := by
      rw [expandUpTo_isMacro]
      exact h3
    rw [macroStep_app_fail r p g.edges (expandUpTo r p g i) i id args t hGi h2 hGm h4,
      hGi, h1]
  · intro root
    rfl

/-- Closed witness for `C3_failing_macro_skipped`: the failing build over
`mgraph` leaves node 1's declaration untouched and still renders a bundle. -/
theorem C3_failing_macro_witness :
    (expandMacros runFail parseStub mgraph).declAt 1 = mgraph.declAt 1 ∧
    intoJsExecutionCode runFail parseStub mgraph 0 =
      printBundle (expandMacros runFail parseStub mgraph) 0 :=
  ⟨(C3_failing_macro_skipped runFail parseStub mgraph 1 ⟨"f", true⟩
      (.cons false (.lit "5") .nil) 2 rfl rfl rfl rfl).1,
   (C3_failing_macro_skipped runFail parseStub mgraph 1 ⟨"f", true⟩
      (.cons false (.lit "5") .nil) 2 rfl rfl rfl rfl).2 0⟩

/-- C4 counterexample: with a macro whose result is again a call to a macro
(`runSelf` returning `f(6)`), expansion completes (the model has no budget
error at all — no `MacroExpansionBudgetExceeded` exists), yet node 1 of the
final graph is still a variable initializer that is a call to a macro:
expansion did not reach a fixed point. -/
theorem C4_counterexample :
    isMacroAppAtB (expandMacros runSelf parseStub mgraph) 1 = true ∧
    (expandMacros runSelf parseStub mgraph).declAt 1 =
      some (.varInit (.call (.cexpr (.ident ⟨"f", true⟩))
        (.cons false (.lit "6") .nil))) :=
  ⟨rfl, rfl⟩

/-- C4 (amended): macro expansion is a *single pass* over the node indices
present at entry: the final declaration of each node is the result of exactly
one expansion attempt (made against the graph state left by the attempts at
lower indices), there is no fixed-point iteration and no iteration cap, and a
macro call contained in an expansion result remains in the graph
unexpanded. -/
theorem C4_single_pass (r : String → List MacroClosure → Option MacroResult)
    (p : String → Option JsExpr) (g : SGraph) (i : Nat) :
    expandMacros r p g = expandUpTo r p g g.nodes.length ∧
    (expandMacros r p g).declAt i =
      (macroStep r p g.edges (expandUpTo r p g i) i).declAt i :=
  ⟨rfl, expand_declAt_char r p g i⟩

/-- C9: `expand_macros` changes only declaration payloads: the edge list
(labels included), the node count and every node's resolved URI are identical
before and after the pass; a node without the detected macro-application
shape keeps its declaration; and the pass is insensitive to the reference
maps the runtime returns (they are discarded). -/
theorem C9_expansion_frame (r r' : String → List MacroClosure → Option MacroResult)
    (p : String → Option JsExpr) (g : SGraph)
    (hagree : ∀ c a, Option.map MacroResult.expression (r c a) =
        Option.map MacroResult.expression (r' c a)) :
    (expandMacros r p g).edges = g.edges ∧
    (expandMacros r p g).nodes.length = g.nodes.length ∧
    (∀ j, ((expandMacros r p g).nodes.get? j).map Prod.fst =
        (g.nodes.get? j).map Prod.fst) ∧
    (∀ j, isMacroAppAtB g j = false →
        (expandMacros r p g).declAt j = g.declAt j) ∧
    expandMacros r p g = expandMacros r' p g :=
  ⟨expandUpTo_edges r p g g.nodes.length,
   expandUpTo_length r p g g.nodes.length,
   fun j => expandUpTo_fst r p g g.nodes.length j,
   fun j h => expand_not_app_unchanged r p g j h,
   expandMacros_congr r r' p g hagree⟩

/-- Closed witness for `C9_expansion_frame`: two runtimes returning the same
expression but different reference maps produce identical expanded graphs,
with edges preserved. -/
theorem C9_expansion_frame_witness :
    (expandMacros runSelfRefs parseStub mgraph).edges = mgraph.edges ∧
    expandMacros runSelfRefs parseStub mgraph =
      expandMacros runSelf parseStub mgraph :=
  ⟨(C9_expansion_frame runSelfRefs runSelf parseStub mgraph (fun _ _ => rfl)).1,
   (C9_expansion_frame runSelfRefs runSelf parseStub mgraph
      (fun _ _ => rfl)).2.2.2.2⟩

/-- C10: a node is expanded exactly when its declaration is a
`VariableInitializer` whose *entire* initializer is a call whose callee is a
bare identifier with an outgoing edge of that label to a `Macro` node: any
node without that exact shape (a nested macro call, a call inside a function
body, the root expression node, …) keeps its declaration and flows unchanged
into the emitted graph, while a node with the shape whose execution succeeds
is overwritten with the parsed result. -/
theorem C10_detection_shape (r : String → List MacroClosure → Option MacroResult)
    (p : String → Option JsExpr) (g : SGraph) (i : Nat) :
    (isMacroAppAtB g i = false →
        (expandMacros r p g).declAt i = g.declAt i) ∧
    (∀ id args t res,
        g.declAt i = some (.varInit (.call (.cexpr (.ident id)) args)) →
        edgeTarget g.edges i id.sym = some t →
        isMacroDecl (g.declAt t) = true →
        executeMacroCall r p g.edges (expandUpTo r p g i) i t args = some res →
        (expandMacros r p g).declAt i = some (.varInit res)) := by
  constructor
  · exact expand_not_app_unchanged r p g i
  · intro id args t res h1 h2 h3 h4
    rw [expand_declAt_char]
    have hGi : (expandUpTo r p g i).declAt i =
        some (.varInit (.call (.cexpr (.ident id)) args)) := by
      rw [expandUpTo_declAt_ge _ _ _ _ _ (le_refl i)]
      exact h1
    have hGm : isMacroDecl ((expandUpTo r p g i).declAt t) = true := by
      rw [expandUpTo_isMacro]
      exact h3
    rw [macroStep_app_success r p g.edges (expandUpTo r p g i) i id args t res
      hGi h2 hGm h4]
    obtain ⟨q, hq⟩ := declAt_some_get _ i _ hGi
    exact setDecl_declAt_of_some _ _ _ _ hq

/-- Closed witness for `C10_detection_shape`: in `mgraph`, the root node
(whose declaration is an `Expression`, not a `VariableInitializer`) is left
unchanged, while node 1 (the exact application shape) is overwritten with the
parsed macro result. -/
theorem C10_detection_witness :
    isMacroAppAtB mgraph 0 = false ∧
    (expandMacros runSelf parseStub mgraph).declAt 0 = mgraph.declAt 0 ∧
    (expandMacros runSelf parseStub mgraph).declAt 1 =
      some (.varInit (.call (.cexpr (.ident ⟨"f", true⟩))
        (.cons false (.lit "6") .nil))) :=
  ⟨rfl,
   (C10_detection_shape runSelf parseStub mgraph 0).1 rfl,
   (C10_detection_shape runSelf parseStub mgraph 1).2 ⟨"f", true⟩
     (.cons false (.lit "5") .nil) 2
     (.call (.cexpr (.ident ⟨"f", true⟩)) (.cons false (.lit "6") .nil))
     rfl rfl rfl rfl⟩

end Funee
